import Mathlib

/-!
# Shape descriptor `DDim` of `paddle/framework/ddim.cc`

A shallow embedding of the dynamic dimension type and of the operations defined in
`ddim.cc`, followed by theorems about them.

Conventions of the embedding.

* The C++ type `int` is embedded as `Int`. The places that compute with `int` values where
  the result can leave the range (`operator+`, `operator*`, the `end - begin` of
  `slice_ddim`) reduce it to the 32-bit two's-complement range (`wrap_int`), which is the
  value of the expression when the mathematical result fits and what the usual targets
  produce when it does not.
* A `std::vector<int>` is a `List Int`; `push_back` appends at the end. A vector's `size()`
  passed to an `int` parameter is converted as the usual targets do, modulo `2^32`
  (`size_to_int`), and storage requests that do not exceed `max_size()` are assumed to be
  granted.
* The C++ type `ssize_t` is embedded as `Int` reduced to the 64-bit two's-complement range
  (`wrap_ssize`).
* A function that can throw returns `Except Err _`; the reference parameters of the visitors
  are threaded through as explicit state.
-/

namespace paddle.framework

/-! ## Exceptions -/

/-- The ways in which the functions of `ddim.cc` stop without a result. -/
inductive Err where
  /-- The `std::invalid_argument("Dynamic dimensions must have between [1, 9] dimensions.")`
  of `make_ddim` -/
  | invalid_argument
  /-- The failure of
  `PADDLE_ENFORCE(begin < end, "Begin index must be less than end index in ddim slice.")` -/
  | enforce_begin_less_than_end
  /-- The failure of
  `PADDLE_ENFORCE(begin >= 0, "Begin index can't be less than zero in ddim slice.")` -/
  | enforce_begin_not_negative
  /-- The failure of `PADDLE_ENFORCE(end == 1, "End index in ddim slice is out of bound.")` -/
  | enforce_end_out_of_bound
  /-- The `std::length_error` thrown by `std::vector::reserve` for a request above `max_size()` -/
  | length_error
  /-- A failed `assert` -/
  | assert_failed
  /-- A read through `const int*` past the end of the array it points into -/
  | read_past_end
  deriving DecidableEq, Repr

deriving instance DecidableEq for Except

/-- Modelled from the spec: the macro `PADDLE_ENFORCE` of `paddle/framework/enforce.h`. It
raises the error that belongs to its message when the condition is false and does nothing
otherwise. -/
def PADDLE_ENFORCE (cond : Bool) (e : Err) : Except Err Unit :=
  if cond then .ok () else .error e

/-- The spec's `InvalidArityError`. -/
def Err.isInvalidArityError : Err → Bool
  | .invalid_argument => true
  | _ => false

/-- The spec's `InvalidSliceRangeError`: one of the two checks of the slice visitor's
constructor. -/
def Err.isInvalidSliceRangeError : Err → Bool
  | .enforce_begin_less_than_end => true
  | .enforce_begin_not_negative => true
  | _ => false

/-- The spec's `SliceOutOfBoundsError`: the check of the arity-1 case of the slice visitor. -/
def Err.isSliceOutOfBoundsError : Err → Bool
  | .enforce_end_out_of_bound => true
  | _ => false

/-! ## Machine integers -/

/-- The value of an `int` expression whose mathematical value is `z`: the representative of
`z` modulo `2^32` in `[-2^31, 2^31)`. -/
def wrap_int (z : Int) : Int := (z + 2147483648) % 4294967296 - 2147483648

/-- The sum `x + y` on `int`. -/
def int_add (x y : Int) : Int := wrap_int (x + y)

/-- The product `x * y` on `int`. -/
def int_mul (x y : Int) : Int := wrap_int (x * y)

/-- The difference `x - y` on `int`. -/
def int_sub (x y : Int) : Int := wrap_int (x - y)

/-- The values of type `int`. -/
def in_int_range (z : Int) : Prop := -2147483648 ≤ z ∧ z < 2147483648

instance (z : Int) : Decidable (in_int_range z) := by
  unfold in_int_range; exact inferInstance

/-- The `int` that a `size_t` value converts to when it is passed to an `int` parameter: the
value itself below `2^31`, and its representative modulo `2^32` in the range of `int`
otherwise. -/
def size_to_int (k : Nat) : Int := wrap_int (k : Int)

/-- The value of an `ssize_t` expression whose mathematical value is `z`: the representative
of `z` modulo `2^64` in `[-2^63, 2^63)`. -/
def wrap_ssize (z : Int) : Int :=
  (z + 9223372036854775808) % 18446744073709551616 - 9223372036854775808

/-- The values of type `ssize_t`. -/
def in_ssize_range (z : Int) : Prop := -9223372036854775808 ≤ z ∧ z < 9223372036854775808

instance (z : Int) : Decidable (in_ssize_range z) := by
  unfold in_ssize_range; exact inferInstance

/-! ## The data model -/

/-- The tuple `Dim<i>`: a head and a tail `Dim<i-1>`, down to `Dim<1>`, which has a head only. -/
inductive Dim : Nat → Type where
  | one (head : Int) : Dim 1
  | cons {i : Nat} (head : Int) (tail : Dim (i + 1)) : Dim (i + 2)
  deriving DecidableEq, Repr

/-- The type `DDim`: the `boost::variant<Dim<1>, ..., Dim<9>>` held in the member `var`. -/
inductive DDim where
  | d1 (var : Dim 1)
  | d2 (var : Dim 2)
  | d3 (var : Dim 3)
  | d4 (var : Dim 4)
  | d5 (var : Dim 5)
  | d6 (var : Dim 6)
  | d7 (var : Dim 7)
  | d8 (var : Dim 8)
  | d9 (var : Dim 9)
  deriving DecidableEq, Repr

/-- The dispatch `boost::apply_visitor`: calls the visitor's `operator()` on the active alternative. -/
def apply_visitor {α : Type} (visitor : {D : Nat} → Dim D → α) : DDim → α
  | .d1 var => visitor var
  | .d2 var => visitor var
  | .d3 var => visitor var
  | .d4 var => visitor var
  | .d5 var => visitor var
  | .d6 var => visitor var
  | .d7 var => visitor var
  | .d8 var => visitor var
  | .d9 var => visitor var

/-- The tag `var.which()`: the zero-based position of the active alternative. -/
def DDim.which : DDim → Int
  | .d1 _ => 0
  | .d2 _ => 1
  | .d3 _ => 2
  | .d4 _ => 3
  | .d5 _ => 4
  | .d6 _ => 5
  | .d7 _ => 6
  | .d8 _ => 7
  | .d9 _ => 8

/-! ## Construction -/

/-- The template `make_dim<i>(const int* d)`; the list is the array from `d` on. `Dim<i>`
takes `*d` as its head and `make_dim<i - 1>(d + 1)` as its tail, `make_dim<1>` takes `*d`
only. There is no value when the array ends before `i` elements were read, and none for
`i = 0`, which is never instantiated. -/
def make_dim : (i : Nat) → List Int → Option (Dim i)
  | 0, _ => none
  | 1, d :: _ => some (Dim.one d)
  | i + 2, d :: ds => (make_dim (i + 1) ds).map (Dim.cons d)
  | _, [] => none

/-- The assignment `ddim = make_dim<D>(dims)` of one `case` of `make_ddim`. -/
def assign_dim {D : Nat} (alt : Dim D → DDim) (r : Option (Dim D)) : Except Err DDim :=
  match r with
  | some d => .ok (alt d)
  | none => .error .read_past_end

/-- The function `void make_ddim(DDim& ddim, const int* dims, int n)`: the `switch` on `n`.
The result is the value of `ddim` afterwards. -/
def make_ddim_n (_ddim : DDim) (dims : List Int) (n : Int) : Except Err DDim :=
  if n = 1 then assign_dim DDim.d1 (make_dim 1 dims)
  else if n = 2 then assign_dim DDim.d2 (make_dim 2 dims)
  else if n = 3 then assign_dim DDim.d3 (make_dim 3 dims)
  else if n = 4 then assign_dim DDim.d4 (make_dim 4 dims)
  else if n = 5 then assign_dim DDim.d5 (make_dim 5 dims)
  else if n = 6 then assign_dim DDim.d6 (make_dim 6 dims)
  else if n = 7 then assign_dim DDim.d7 (make_dim 7 dims)
  else if n = 8 then assign_dim DDim.d8 (make_dim 8 dims)
  else if n = 9 then assign_dim DDim.d9 (make_dim 9 dims)
  else .error .invalid_argument

/-- The function `DDim make_ddim(const std::vector<int>& dims)` (and its twin for
`std::initializer_list<int>`): `result` starts as `make_dim(0)`, a `Dim<1>` with extent 0,
and is then assigned by `make_ddim(result, &dims[0], dims.size())`, where the `size_t`
`dims.size()` is converted to the parameter `int n`. -/
def make_ddim (dims : List Int) : Except Err DDim :=
  make_ddim_n (DDim.d1 (Dim.one 0)) dims (size_to_int dims.length)

/-! ## Flattening, arity -/

/-- The visitor `VectorizeVisitor::operator()`: pushes the head and goes on with the tail;
the overload for `Dim<1>` pushes the head. The list is the referenced `vector`. -/
def VectorizeVisitor : {D : Nat} → Dim D → List Int → List Int
  | _, Dim.one head, vector => vector ++ [head]
  | _, Dim.cons head tail, vector => VectorizeVisitor tail (vector ++ [head])

/-- The function `std::vector<int> vectorize(const DDim& ddim)`. -/
def vectorize (ddim : DDim) : List Int :=
  apply_visitor (fun t => VectorizeVisitor t []) ddim

/-- The function `int arity(const DDim& d)`: `ArityVisitor` returns the `D` of `Dim<D>`. -/
def arity (d : DDim) : Int :=
  apply_visitor (fun {D : Nat} (_ : Dim D) => (D : Int)) d

/-- The read `v[i]` of a `std::vector<int>`. Below `v.size()` it is the element; the callers
never read at or above it (there the embedding gives 0). -/
def vec_at (v : List Int) (i : Nat) : Int := v.getD i 0

/-! ## Equality and arithmetic -/

/-- The operator `bool DDim::operator==(DDim d) const`. -/
def DDim.eq (self d : DDim) : Bool :=
  if self.which ≠ d.which then false
  else
    let v1 := vectorize self
    let v2 := vectorize d
    (List.range v1.length).all (fun i => vec_at v1 i == vec_at v2 i)

/-- The operator `bool DDim::operator!=(DDim d) const`. -/
def DDim.ne (self d : DDim) : Bool := !(DDim.eq self d)

/-- The operator `DDim DDim::operator+(DDim d) const`. -/
def DDim.add (self d : DDim) : Except Err DDim :=
  let v1 := vectorize self
  let v2 := vectorize d
  if v1.length ≠ v2.length then .error .assert_failed
  else make_ddim ((List.range v1.length).map (fun i => int_add (vec_at v1 i) (vec_at v2 i)))

/-- The operator `DDim DDim::operator*(DDim d) const`. -/
def DDim.mul (self d : DDim) : Except Err DDim :=
  let v1 := vectorize self
  let v2 := vectorize d
  if v1.length ≠ v2.length then .error .assert_failed
  else make_ddim ((List.range v1.length).map (fun i => int_mul (vec_at v1 i) (vec_at v2 i)))

/-! ## Slicing -/

/-- The state of a `SliceVectorizeVisitor`: the referenced `vector`, `begin` and `end`. -/
structure SliceVectorizeVisitor where
  vector : List Int
  begin : Int
  end_ : Int
  deriving DecidableEq, Repr

/-- The constructor `SliceVectorizeVisitor(std::vector<int>& v, int b, int e)`. -/
def SliceVectorizeVisitor.new (v : List Int) (b e : Int) : Except Err SliceVectorizeVisitor := do
  let self : SliceVectorizeVisitor := ⟨v, b, e⟩
  PADDLE_ENFORCE (decide (self.begin < self.end_)) .enforce_begin_less_than_end
  PADDLE_ENFORCE (decide (self.begin ≥ 0)) .enforce_begin_not_negative
  pure self

/-- The visitor `SliceVectorizeVisitor::operator()`, for `Dim<S>` and for `Dim<1>`. The
decrements are of positive values: `begin` only when it is not 0, and `end` is above
`begin` on entry. -/
def SliceVectorizeVisitor.call :
    {S : Nat} → Dim S → SliceVectorizeVisitor → Except Err SliceVectorizeVisitor
  | _, Dim.one head, self => do
      PADDLE_ENFORCE (decide (self.end_ = 1)) .enforce_end_out_of_bound
      pure { self with vector := self.vector ++ [head] }
  | _, Dim.cons head tail, self =>
      let self1 : SliceVectorizeVisitor :=
        if self.begin = 0 then { self with vector := self.vector ++ [head] }
        else { self with begin := self.begin - 1 }
      let self2 : SliceVectorizeVisitor := { self1 with end_ := self1.end_ - 1 }
      if self2.end_ > 0 then SliceVectorizeVisitor.call tail self2 else pure self2

/-- The call `vec.reserve(n)` with an `int` argument `n`. The parameter is the unsigned
`size_type`: a negative `n` arrives as a value of at least `2^31`, which is above
`max_size()`, and `reserve` throws `std::length_error`. Otherwise it changes the capacity
only. -/
def reserve (n : Int) : Except Err Unit :=
  if n < 0 then .error .length_error else .ok ()

/-- The function `DDim slice_ddim(const DDim& dim, int begin, int end)`. -/
def slice_ddim (dim : DDim) (begin end_ : Int) : Except Err DDim := do
  let vec : List Int := []
  reserve (int_sub end_ begin)
  let visitor ← SliceVectorizeVisitor.new vec begin end_
  let visitor ← apply_visitor (fun t => SliceVectorizeVisitor.call t visitor) dim
  make_ddim visitor.vector

/-! ## Indexed access -/

/-- Modelled from the spec: the member `int Dim<D>::operator[](int idx) const` of
`paddle/framework/dim.h`, which is not part of this file. "If `idx == 0` return head, else
recurse into tail with `idx - 1`"; a `Dim<1>` has no tail, and an index outside `0 <= idx <
arity` has no defined value (`none`). -/
def Dim.index : {D : Nat} → Dim D → Int → Option Int
  | _, Dim.one head, idx => if idx = 0 then some head else none
  | _, Dim.cons head tail, idx => if idx = 0 then some head else Dim.index tail (idx - 1)

/-- Modelled from the spec: the member `int& Dim<D>::operator[](int idx)` of
`paddle/framework/dim.h`, together with an assignment of `value` through the reference it
returns. The slot is found as in `Dim.index`; the result is the tuple afterwards, and there is
none for an index outside `0 <= idx < arity`. -/
def Dim.assign : {D : Nat} → Dim D → Int → Int → Option (Dim D)
  | _, Dim.one _, idx, value => if idx = 0 then some (Dim.one value) else none
  | _, Dim.cons head tail, idx, value =>
      if idx = 0 then some (Dim.cons value tail)
      else (Dim.assign tail (idx - 1) value).map (Dim.cons head)

/-- The visitor `DynamicConstIndexer(idx)`: `operator()` returns `dim[idx_]`. -/
def DynamicConstIndexer (idx_ : Int) {D : Nat} (dim : Dim D) : Option Int :=
  Dim.index dim idx_

/-- The operator `int DDim::operator[](int idx) const`. -/
def DDim.index (self : DDim) (idx : Int) : Option Int :=
  apply_visitor (fun dim => DynamicConstIndexer idx dim) self

/-- The operator `int& DDim::operator[](int idx)`, which applies `DynamicMutableIndexer(idx)`
to `var` (its `operator()` returns `dim[idx_]` of the active alternative), together with an
assignment of `value` through the returned reference. The result is the `DDim` afterwards. -/
def DDim.assign (self : DDim) (idx value : Int) : Option DDim :=
  match self with
  | .d1 var => (Dim.assign var idx value).map DDim.d1
  | .d2 var => (Dim.assign var idx value).map DDim.d2
  | .d3 var => (Dim.assign var idx value).map DDim.d3
  | .d4 var => (Dim.assign var idx value).map DDim.d4
  | .d5 var => (Dim.assign var idx value).map DDim.d5
  | .d6 var => (Dim.assign var idx value).map DDim.d6
  | .d7 var => (Dim.assign var idx value).map DDim.d7
  | .d8 var => (Dim.assign var idx value).map DDim.d8
  | .d9 var => (Dim.assign var idx value).map DDim.d9

/-- The function `int get(const DDim& ddim, int idx)`: `ddim[idx]`. -/
def get (ddim : DDim) (idx : Int) : Option Int := DDim.index ddim idx

/-- The function `void set(DDim& ddim, int idx, int value)`: `ddim[idx] = value`. The result
is `ddim` afterwards. -/
def set (ddim : DDim) (idx value : Int) : Option DDim := DDim.assign ddim idx value

/-! ## Product -/

/-- Modelled from the spec: the function `product(const Dim<D>&)` of
`paddle/framework/dim.h`, which is not part of this file. "Returns the product of all
extents", "implemented once per arity directly over the tuple structure", with a result that
is a "signed-size integer": the head times the product of the tail, computed in `ssize_t`.
The spec leaves open what happens when the product does not fit; here it is reduced to the
range of `ssize_t`, and the theorems promise its value only when it fits. -/
def Dim.product : {D : Nat} → Dim D → Int
  | _, Dim.one head => wrap_ssize head
  | _, Dim.cons head tail => wrap_ssize (head * Dim.product tail)

/-- The visitor `ProductVisitor::operator()`: returns `product(dim)` as an `ssize_t`. -/
def ProductVisitor {D : Nat} (dim : Dim D) : Int := wrap_ssize (Dim.product dim)

/-- The function `ssize_t product(const DDim& ddim)`. -/
def product (ddim : DDim) : Int :=
  apply_visitor (fun dim => ProductVisitor dim) ddim

/-! ## Views used in the statements -/

/-- The extents of a `Dim<D>`, in axis order. -/
def Dim.toList : {D : Nat} → Dim D → List Int
  | _, Dim.one head => [head]
  | _, Dim.cons head tail => head :: Dim.toList tail

/-! ## Lemmas on machine integers -/

theorem wrap_int_of_in_range (z : Int) (h : in_int_range z) : wrap_int z = z := by
  unfold in_int_range at h
  unfold wrap_int
  omega

theorem wrap_int_in_range (z : Int) : in_int_range (wrap_int z) := by
  unfold in_int_range wrap_int
  omega

theorem size_to_int_of_lt (k : Nat) (h : k < 2147483648) : size_to_int k = (k : Int) := by
  unfold size_to_int wrap_int
  omega

theorem wrap_ssize_of_in_range (z : Int) (h : in_ssize_range z) : wrap_ssize z = z := by
  unfold in_ssize_range at h
  unfold wrap_ssize
  omega

theorem wrap_ssize_in_range (z : Int) : in_ssize_range (wrap_ssize z) := by
  unfold in_ssize_range wrap_ssize
  omega

theorem wrap_ssize_idem (z : Int) : wrap_ssize (wrap_ssize z) = wrap_ssize z :=
  wrap_ssize_of_in_range _ (wrap_ssize_in_range z)

theorem wrap_ssize_mul_wrap (x y : Int) : wrap_ssize (x * wrap_ssize y) = wrap_ssize (x * y) := by
  have hq : wrap_ssize y =
      y - 18446744073709551616 * ((y + 9223372036854775808) / 18446744073709551616) := by
    unfold wrap_ssize
    omega
  have hm : x * wrap_ssize y = x * y -
      18446744073709551616 * (x * ((y + 9223372036854775808) / 18446744073709551616)) := by
    rw [hq]
    ring
  rw [hm]
  generalize x * y = p
  generalize x * ((y + 9223372036854775808) / 18446744073709551616) = k
  unfold wrap_ssize
  omega

/-! ## Lemmas on the tuples -/

theorem VectorizeVisitor_eq {D : Nat} (t : Dim D) (acc : List Int) :
    VectorizeVisitor t acc = acc ++ t.toList := by
  induction t generalizing acc with
  | one head => simp [VectorizeVisitor, Dim.toList]
  | cons head tail ih => simp [VectorizeVisitor, Dim.toList, ih]

theorem Dim.length_toList {D : Nat} (t : Dim D) : t.toList.length = D := by
  induction t with
  | one head => simp [Dim.toList]
  | cons head tail ih => simp [Dim.toList, ih]

theorem Dim.toList_injective {D : Nat} (t u : Dim D) (h : t.toList = u.toList) : t = u := by
  induction t with
  | one head =>
    cases u with
    | one head2 => simp [Dim.toList] at h; simp [h]
  | cons head tail ih =>
    cases u with
    | cons head2 tail2 =>
      simp [Dim.toList] at h
      rw [h.1, ih tail2 h.2]

theorem make_dim_toList {D : Nat} (t : Dim D) (rest : List Int) :
    make_dim D (t.toList ++ rest) = some t := by
  induction t with
  | one head => simp [Dim.toList, make_dim]
  | cons head tail ih => simp [Dim.toList, make_dim, ih]

theorem make_dim_some (i : Nat) (v : List Int) (h1 : 1 ≤ i) (h : i ≤ v.length) :
    ∃ t, make_dim i v = some t ∧ t.toList = v.take i := by
  induction i generalizing v with
  | zero => omega
  | succ k ih =>
    cases v with
    | nil => simp at h
    | cons d ds =>
      cases k with
      | zero => exact ⟨Dim.one d, by simp [make_dim], by simp [Dim.toList]⟩
      | succ m =>
        obtain ⟨t, ht, hl⟩ := ih ds (by omega) (by simpa using h)
        exact ⟨Dim.cons d t, by simp [make_dim, ht], by simp [Dim.toList, hl]⟩

/-! ## Lemmas on `DDim` -/

theorem vectorize_length (s : DDim) : ((vectorize s).length : Int) = arity s := by
  cases s <;> simp [vectorize, arity, apply_visitor, VectorizeVisitor_eq, Dim.length_toList]

theorem arity_bounds (s : DDim) : 1 ≤ arity s ∧ arity s ≤ 9 := by
  cases s <;> simp [arity, apply_visitor]

theorem which_eq (s : DDim) : s.which = arity s - 1 := by
  cases s <;> simp [arity, apply_visitor, DDim.which]

theorem make_ddim_vectorize (s : DDim) : make_ddim (vectorize s) = .ok s := by
  cases s with
  | d1 t | d2 t | d3 t | d4 t | d5 t | d6 t | d7 t | d8 t | d9 t =>
    have h := make_dim_toList t []
    simp only [List.append_nil] at h
    simp [make_ddim, size_to_int, wrap_int, make_ddim_n, vectorize, apply_visitor,
      VectorizeVisitor_eq, Dim.length_toList, assign_dim, h]

theorem vectorize_injective (a b : DDim) (h : vectorize a = vectorize b) : a = b := by
  have ha := make_ddim_vectorize a
  rw [h, make_ddim_vectorize b] at ha
  exact (Except.ok.inj ha).symm

theorem make_ddim_ok (v : List Int) (h1 : 1 ≤ v.length) (h9 : v.length ≤ 9) :
    ∃ s, make_ddim v = .ok s ∧ vectorize s = v := by
  obtain ⟨t, ht, hl⟩ := make_dim_some v.length v h1 (le_refl _)
  rw [List.take_length] at hl
  have hv : v = t.toList := hl.symm
  have hk : v.length = 1 ∨ v.length = 2 ∨ v.length = 3 ∨ v.length = 4 ∨ v.length = 5 ∨
      v.length = 6 ∨ v.length = 7 ∨ v.length = 8 ∨ v.length = 9 := by omega
  clear ht hl h1 h9
  generalize v.length = D at t hk hv
  subst hv
  rcases hk with h | h | h | h | h | h | h | h | h <;> subst h
  · exact ⟨DDim.d1 t, by simpa [vectorize, apply_visitor, VectorizeVisitor_eq] using make_ddim_vectorize (DDim.d1 t),
      by simp [vectorize, apply_visitor, VectorizeVisitor_eq]⟩
  · exact ⟨DDim.d2 t, by simpa [vectorize, apply_visitor, VectorizeVisitor_eq] using make_ddim_vectorize (DDim.d2 t),
      by simp [vectorize, apply_visitor, VectorizeVisitor_eq]⟩
  · exact ⟨DDim.d3 t, by simpa [vectorize, apply_visitor, VectorizeVisitor_eq] using make_ddim_vectorize (DDim.d3 t),
      by simp [vectorize, apply_visitor, VectorizeVisitor_eq]⟩
  · exact ⟨DDim.d4 t, by simpa [vectorize, apply_visitor, VectorizeVisitor_eq] using make_ddim_vectorize (DDim.d4 t),
      by simp [vectorize, apply_visitor, VectorizeVisitor_eq]⟩
  · exact ⟨DDim.d5 t, by simpa [vectorize, apply_visitor, VectorizeVisitor_eq] using make_ddim_vectorize (DDim.d5 t),
      by simp [vectorize, apply_visitor, VectorizeVisitor_eq]⟩
  · exact ⟨DDim.d6 t, by simpa [vectorize, apply_visitor, VectorizeVisitor_eq] using make_ddim_vectorize (DDim.d6 t),
      by simp [vectorize, apply_visitor, VectorizeVisitor_eq]⟩
  · exact ⟨DDim.d7 t, by simpa [vectorize, apply_visitor, VectorizeVisitor_eq] using make_ddim_vectorize (DDim.d7 t),
      by simp [vectorize, apply_visitor, VectorizeVisitor_eq]⟩
  · exact ⟨DDim.d8 t, by simpa [vectorize, apply_visitor, VectorizeVisitor_eq] using make_ddim_vectorize (DDim.d8 t),
      by simp [vectorize, apply_visitor, VectorizeVisitor_eq]⟩
  · exact ⟨DDim.d9 t, by simpa [vectorize, apply_visitor, VectorizeVisitor_eq] using make_ddim_vectorize (DDim.d9 t),
      by simp [vectorize, apply_visitor, VectorizeVisitor_eq]⟩

theorem make_ddim_invalid (v : List Int) (h : v.length = 0 ∨ 9 < v.length)
    (hlt : v.length < 2147483648) : make_ddim v = .error .invalid_argument := by
  simp only [make_ddim, make_ddim_n, size_to_int_of_lt _ hlt]
  split_ifs <;> first | omega | rfl

theorem make_ddim_invalid_argument_iff_of_size_lt (v : List Int)
    (hlt : v.length < 2147483648) :
    (make_ddim v = .error .invalid_argument ↔ (v.length = 0 ∨ 9 < v.length)) ∧
    ((∃ e, make_ddim v = .error e ∧ e.isInvalidArityError = true) ↔
      (v.length = 0 ∨ 9 < v.length)) ∧
    ((∃ e, make_ddim v = .error e) ↔ (v.length = 0 ∨ 9 < v.length)) ∧
    ((∃ s, make_ddim v = .ok s) ↔ (1 ≤ v.length ∧ v.length ≤ 9)) := by
  by_cases h : v.length = 0 ∨ 9 < v.length
  · have hm := make_ddim_invalid v h hlt
    simp only [hm, h, iff_true, true_and]
    refine ⟨⟨_, rfl, rfl⟩, ⟨_, rfl⟩, ?_⟩
    constructor
    · rintro ⟨s, hs⟩
      cases hs
    · intro h2
      omega
  · obtain ⟨s, hs, _⟩ := make_ddim_ok v (by omega) (by omega)
    simp only [hs, h, iff_false]
    refine ⟨by simp, by simp, by simp, ?_⟩
    constructor
    · intro _
      omega
    · intro _
      exact ⟨s, rfl⟩

/-! ## Lemmas on the slice visitor -/

theorem SliceVectorizeVisitor.call_spec {S : Nat} (t : Dim S) (vec : List Int) (b e : Nat)
    (hbe : b < e) :
    (e ≤ S → ∃ st, SliceVectorizeVisitor.call t ⟨vec, (b : Int), (e : Int)⟩ = .ok st ∧
        st.vector = vec ++ (t.toList.take e).drop b) ∧
    (S < e → SliceVectorizeVisitor.call t ⟨vec, (b : Int), (e : Int)⟩ =
        .error .enforce_end_out_of_bound) := by
  induction t generalizing vec b e with
  | one head =>
    constructor
    · intro he
      have he1 : e = 1 := by omega
      have hb0 : b = 0 := by omega
      subst he1 hb0
      exact ⟨⟨vec ++ [head], 0, 1⟩,
        by simp [SliceVectorizeVisitor.call, PADDLE_ENFORCE, bind, Except.bind, pure, Except.pure],
        by simp [Dim.toList]⟩
    · intro he
      have : ¬ ((e : Int) = 1) := by omega
      simp [SliceVectorizeVisitor.call, PADDLE_ENFORCE, bind, Except.bind, this]
  | cons head tail ih =>
    rename_i i
    obtain ⟨e1, rfl⟩ : ∃ e1, e = e1 + 1 := ⟨e - 1, by omega⟩
    cases b with
    | zero =>
      by_cases h0 : e1 = 0
      · subst h0
        constructor
        · intro _
          exact ⟨⟨vec ++ [head], 0, 0⟩, by simp [SliceVectorizeVisitor.call, pure, Except.pure],
            by simp [Dim.toList]⟩
        · intro he; omega
      · have hpos : (0 : Int) < (e1 : Int) := by omega
        obtain ⟨ihok, iherr⟩ := ih (vec ++ [head]) 0 e1 (by omega)
        constructor
        · intro he
          obtain ⟨st, hst, hv⟩ := ihok (by omega)
          refine ⟨st, ?_, ?_⟩
          · simpa [SliceVectorizeVisitor.call, hpos] using hst
          · simp [hv, Dim.toList]
        · intro he
          have := iherr (by omega)
          simpa [SliceVectorizeVisitor.call, hpos] using this
    | succ b1 =>
      have hpos : (0 : Int) < (e1 : Int) := by omega
      have hb : ¬ ((b1 : Int) + 1 = 0) := by omega
      obtain ⟨ihok, iherr⟩ := ih vec b1 e1 (by omega)
      constructor
      · intro he
        obtain ⟨st, hst, hv⟩ := ihok (by omega)
        refine ⟨st, ?_, ?_⟩
        · simpa [SliceVectorizeVisitor.call, hpos, hb] using hst
        · simp [hv, Dim.toList]
      · intro he
        have := iherr (by omega)
        simpa [SliceVectorizeVisitor.call, hpos, hb] using this

theorem apply_visitor_dim (s : DDim) :
    ∃ (D : Nat) (t : Dim D), (D : Int) = arity s ∧ t.toList = vectorize s ∧
      ∀ {α : Type} (f : {D : Nat} → Dim D → α), apply_visitor f s = f t := by
  cases s with
  | d1 t | d2 t | d3 t | d4 t | d5 t | d6 t | d7 t | d8 t | d9 t =>
    exact ⟨_, t, by simp [arity, apply_visitor],
      by simp [vectorize, apply_visitor, VectorizeVisitor_eq], fun _ => rfl⟩

theorem slice_ddim_eq_call (s : DDim) (b e : Int) (hb : 0 ≤ b) (hbe : b < e)
    (hr : e < 2147483648) :
    slice_ddim s b e =
      (apply_visitor (fun t => SliceVectorizeVisitor.call t ⟨[], b, e⟩) s).bind
        (fun st => make_ddim st.vector) := by
  have hw : ¬ (int_sub e b < 0) := by
    unfold int_sub wrap_int
    omega
  have h1 : decide (b < e) = true := by simpa using hbe
  have h2 : decide (b ≥ 0) = true := by simpa using hb
  simp [slice_ddim, reserve, hw, SliceVectorizeVisitor.new, PADDLE_ENFORCE, h1, h2, bind,
    Except.bind, pure, Except.pure]

theorem slice_ddim_ok_aux (s : DDim) (b e : Int) (hb : 0 ≤ b) (hbe : b < e)
    (he : e ≤ arity s) :
    ∃ r, slice_ddim s b e = .ok r ∧
      vectorize r = ((vectorize s).take e.toNat).drop b.toNat ∧
      ((vectorize r).length : Int) = e - b := by
  obtain ⟨D, t, hD, hl, hf⟩ := apply_visitor_dim s
  have hs := arity_bounds s
  rw [slice_ddim_eq_call s b e hb hbe (by omega), hf]
  lift b to Nat using hb
  lift e to Nat using (by omega)
  have hbe1 : b < e := by omega
  have heD : e ≤ D := by omega
  obtain ⟨st, hst, hv⟩ := (SliceVectorizeVisitor.call_spec t [] b e hbe1).1 heD
  have hlen : st.vector.length = e - b := by
    rw [hv]
    simp [Dim.length_toList, Nat.min_eq_left heD]
  obtain ⟨r, hr, hvr⟩ := make_ddim_ok st.vector (by omega) (by omega)
  refine ⟨r, ?_, ?_, ?_⟩
  · simp only [hst, Except.bind]
    exact hr
  · rw [hvr, hv, ← hl]
    simp
  · rw [hvr, hlen]
    omega

theorem slice_ddim_length_error (s : DDim) (b e : Int) (hbe : e < b)
    (hr : -2147483648 ≤ e - b) : slice_ddim s b e = .error .length_error := by
  have hw : int_sub e b < 0 := by
    unfold int_sub wrap_int
    omega
  simp [slice_ddim, reserve, hw, bind, Except.bind]

theorem slice_ddim_begin_eq_end (s : DDim) (b : Int) :
    slice_ddim s b b = .error .enforce_begin_less_than_end := by
  have hw : ¬ (int_sub b b < 0) := by
    unfold int_sub wrap_int
    omega
  simp [slice_ddim, reserve, hw, SliceVectorizeVisitor.new, PADDLE_ENFORCE, bind, Except.bind]

theorem slice_ddim_begin_negative (s : DDim) (b e : Int) (hb : b < 0) (hbe : b < e)
    (hr : e - b < 2147483648) : slice_ddim s b e = .error .enforce_begin_not_negative := by
  have hw : ¬ (int_sub e b < 0) := by
    unfold int_sub wrap_int
    omega
  have h1 : decide (b < e) = true := by simpa using hbe
  have h2 : decide (b ≥ 0) = false := by simpa using hb
  simp [slice_ddim, reserve, hw, SliceVectorizeVisitor.new, PADDLE_ENFORCE, h1, h2, bind,
    Except.bind]

/-! ## Lemmas on the element-wise loops -/

theorem vec_at_map_range (f : Nat → Int) (n i : Nat) (h : i < n) :
    vec_at ((List.range n).map f) i = f i := by
  unfold vec_at
  rw [List.getD_eq_getElem _ _ (by simpa using h)]
  simp

theorem vec_at_eq_getElem? (v : List Int) (i : Nat) (h : i < v.length) :
    v[i]? = some (vec_at v i) := by
  unfold vec_at
  rw [List.getD_eq_getElem _ _ h, List.getElem?_eq_getElem h]

theorem pointwise_make_ddim (op : Int → Int → Int) (a b : DDim) :
    ∃ r, make_ddim ((List.range (vectorize a).length).map
          (fun i => op (vec_at (vectorize a) i) (vec_at (vectorize b) i))) = .ok r ∧
      arity r = arity a ∧
      ∀ i : Nat, (i : Int) < arity a →
        vec_at (vectorize r) i = op (vec_at (vectorize a) i) (vec_at (vectorize b) i) := by
  have ha := arity_bounds a
  have hla := vectorize_length a
  obtain ⟨r, hr, hv⟩ := make_ddim_ok ((List.range (vectorize a).length).map
    (fun i => op (vec_at (vectorize a) i) (vec_at (vectorize b) i)))
    (by simp; omega) (by simp; omega)
  refine ⟨r, hr, ?_, ?_⟩
  · rw [← vectorize_length r, hv]
    simpa using hla
  · intro i hi
    rw [hv]
    exact vec_at_map_range _ _ _ (by omega)

theorem DDim.eq_iff_vectorize (a b : DDim) :
    DDim.eq a b = true ↔ vectorize a = vectorize b := by
  constructor
  · intro h
    unfold DDim.eq at h
    by_cases hw : a.which ≠ b.which
    · simp [hw] at h
    · simp only [hw, if_false, List.all_eq_true, List.mem_range, beq_iff_eq] at h
      have hlen : (vectorize a).length = (vectorize b).length := by
        have h1 := vectorize_length a
        have h2 := vectorize_length b
        rw [which_eq, which_eq] at hw
        omega
      apply List.ext_getElem hlen
      intro n h1 h2
      have := h n h1
      unfold vec_at at this
      rwa [List.getD_eq_getElem _ _ h1, List.getD_eq_getElem _ _ h2] at this
  · intro h
    have hab := vectorize_injective a b h
    subst hab
    simp [DDim.eq]

theorem DDim.eq_of_arity_ne (a b : DDim) (h : arity a ≠ arity b) : DDim.eq a b = false := by
  have hw : a.which ≠ b.which := by
    rw [which_eq, which_eq]
    omega
  simp [DDim.eq, hw]

/-! ## The claims -/

/-- C1. For every list `v` of 1 to 9 integers `make_ddim v` returns a shape, and `vectorize`
of that shape is `v` again: the same extents in the same axis order. -/
theorem vectorize_make_ddim_roundtrip (v : List Int) (h1 : 1 ≤ v.length)
    (h9 : v.length ≤ 9) : ∃ s, make_ddim v = .ok s ∧ vectorize s = v :=
  make_ddim_ok v h1 h9

theorem vectorize_make_ddim_roundtrip_witness :
    (1 ≤ [10, 20, 30, 40].length ∧ [10, 20, 30, 40].length ≤ 9) ∧
      ∃ s, make_ddim [10, 20, 30, 40] = .ok s ∧ vectorize s = [10, 20, 30, 40] :=
  ⟨by decide, vectorize_make_ddim_roundtrip [10, 20, 30, 40] (by decide) (by decide)⟩

/-- C2, at a vector of `2^32 + 1` extents (all 0): its size is above 9, and `make_ddim`
returns a shape all the same. The `size_t` size `4294967297` is converted to the parameter
`int n` as `1`, the `switch` takes `case 1`, and the result is the `Dim<1>` of the first
extent; the `default` with its "Dynamic dimensions must have between [1, 9] dimensions." is
not reached. -/
theorem make_ddim_narrowed_size_accepted :
    (List.replicate 4294967297 (0 : Int)).length = 4294967297 ∧
    9 < (List.replicate 4294967297 (0 : Int)).length ∧
    size_to_int (List.replicate 4294967297 (0 : Int)).length = 1 ∧
    make_ddim (List.replicate 4294967297 (0 : Int)) = .ok (DDim.d1 (Dim.one 0)) := by
  have hlen : (List.replicate 4294967297 (0 : Int)).length = 4294967297 :=
    List.length_replicate _ _
  have hn : size_to_int 4294967297 = 1 := by
    unfold size_to_int wrap_int
    omega
  have hcons : List.replicate 4294967297 (0 : Int) = 0 :: List.replicate 4294967296 0 :=
    @List.replicate_succ Int 0 4294967296
  refine ⟨hlen, by rw [hlen]; omega, by rw [hlen, hn], ?_⟩
  unfold make_ddim
  rw [hlen, hn]
  unfold make_ddim_n
  rw [if_pos rfl, hcons]
  rfl

/-- C3. For a shape `s` and `int`s with `0 <= begin < end <= arity(s)`, `slice_ddim` returns
a shape of arity `end - begin` whose flattened list is the part of `vectorize(s)` at the
positions `begin`, ..., `end - 1`, in that order; `end = arity(s)` is included. -/
theorem slice_ddim_in_bounds (s : DDim) (b e : Int) (hb : 0 ≤ b) (hbe : b < e)
    (he : e ≤ arity s) :
    ∃ r, slice_ddim s b e = .ok r ∧ arity r = e - b ∧
      vectorize r = ((vectorize s).take e.toNat).drop b.toNat ∧
      ∀ k : Nat, (k : Int) < e - b → (vectorize r)[k]? = (vectorize s)[b.toNat + k]? := by
  obtain ⟨r, hr, hv, hl⟩ := slice_ddim_ok_aux s b e hb hbe he
  refine ⟨r, hr, ?_, hv, ?_⟩
  · rw [← vectorize_length r]
    exact hl
  · intro k hk
    rw [hv, List.getElem?_drop, List.getElem?_take]
    have : b.toNat + k < e.toNat := by omega
    simp [this]

theorem slice_ddim_in_bounds_witness :
    ((0 : Int) ≤ 1 ∧ (1 : Int) < 3 ∧
      (3 : Int) ≤ arity (DDim.d4 (Dim.cons 10 (Dim.cons 20 (Dim.cons 30 (Dim.one 40)))))) ∧
    make_ddim [10, 20, 30, 40] =
      .ok (DDim.d4 (Dim.cons 10 (Dim.cons 20 (Dim.cons 30 (Dim.one 40))))) ∧
    (slice_ddim (DDim.d4 (Dim.cons 10 (Dim.cons 20 (Dim.cons 30 (Dim.one 40))))) 1 3).map
      vectorize = .ok [20, 30] ∧
    ∃ r, slice_ddim (DDim.d4 (Dim.cons 10 (Dim.cons 20 (Dim.cons 30 (Dim.one 40))))) 1 3
        = .ok r ∧ arity r = 3 - 1 ∧
      vectorize r = ((vectorize (DDim.d4 (Dim.cons 10 (Dim.cons 20 (Dim.cons 30
        (Dim.one 40)))))).take (3 : Int).toNat).drop (1 : Int).toNat ∧
      ∀ k : Nat, (k : Int) < 3 - 1 → (vectorize r)[k]? =
        (vectorize (DDim.d4 (Dim.cons 10 (Dim.cons 20 (Dim.cons 30 (Dim.one 40))))))[
          (1 : Int).toNat + k]? :=
  ⟨by decide, by decide, by decide,
    slice_ddim_in_bounds (DDim.d4 (Dim.cons 10 (Dim.cons 20 (Dim.cons 30 (Dim.one 40))))) 1 3
      (by decide) (by decide) (by decide)⟩

/-- C4. For a shape `s` and `int`s with `0 <= begin < end` and `end > arity(s)`, `slice_ddim`
returns no shape: it fails in the check `end == 1` of the `Dim<1>` case, "End index in ddim
slice is out of bound" (the spec's `SliceOutOfBoundsError`). -/
theorem slice_ddim_end_out_of_bound (s : DDim) (b e : Int) (hb : 0 ≤ b) (hbe : b < e)
    (he : arity s < e) (hr : in_int_range e) :
    slice_ddim s b e = .error .enforce_end_out_of_bound ∧
      Err.isSliceOutOfBoundsError .enforce_end_out_of_bound = true := by
  refine ⟨?_, rfl⟩
  obtain ⟨D, t, hD, -, hf⟩ := apply_visitor_dim s
  rw [slice_ddim_eq_call s b e hb hbe hr.2, hf]
  lift b to Nat using hb
  lift e to Nat using (by omega)
  rw [(SliceVectorizeVisitor.call_spec t [] b e (by omega)).2 (by omega)]
  rfl

theorem slice_ddim_end_out_of_bound_witness :
    (make_ddim [1, 2, 3] = .ok (DDim.d3 (Dim.cons 1 (Dim.cons 2 (Dim.one 3)))) ∧
      (0 : Int) ≤ 0 ∧ (0 : Int) < 5 ∧
      arity (DDim.d3 (Dim.cons 1 (Dim.cons 2 (Dim.one 3)))) < 5 ∧ in_int_range 5) ∧
    (slice_ddim (DDim.d3 (Dim.cons 1 (Dim.cons 2 (Dim.one 3)))) 0 5
        = .error .enforce_end_out_of_bound ∧
      Err.isSliceOutOfBoundsError .enforce_end_out_of_bound = true) :=
  ⟨by decide,
    slice_ddim_end_out_of_bound (DDim.d3 (Dim.cons 1 (Dim.cons 2 (Dim.one 3)))) 0 5
      (by decide) (by decide) (by decide) (by decide)⟩

/-- C5, at the spec's own input `slice(s, 2, 1)` with `s = make([1,2,3])`: `slice_ddim` stops
in `vec.reserve(end - begin)`, whose argument `-1` is above `max_size()` as a `size_type`,
with `std::length_error`. The constructor of the visitor and its check `begin < end` are not
reached, so the failure is not the spec's `InvalidSliceRangeError`. -/
theorem slice_ddim_begin_above_end_length_error :
    make_ddim [1, 2, 3] = .ok (DDim.d3 (Dim.cons 1 (Dim.cons 2 (Dim.one 3)))) ∧
    slice_ddim (DDim.d3 (Dim.cons 1 (Dim.cons 2 (Dim.one 3)))) 2 1 = .error .length_error ∧
    Err.isInvalidSliceRangeError .length_error = false ∧
    (2 : Int) ≥ 1 := by
  decide

/-- C6. The operator `==` on two shapes is true exactly when they have the same arity and
the same extent at every axis below it, which is to say exactly when their flattened lists
are equal. -/
theorem DDim.eq_iff (a b : DDim) :
    (DDim.eq a b = true ↔
      (arity a = arity b ∧
        ∀ i : Nat, (i : Int) < arity a → (vectorize a)[i]? = (vectorize b)[i]?)) ∧
    (DDim.eq a b = true ↔ vectorize a = vectorize b) := by
  refine ⟨?_, DDim.eq_iff_vectorize a b⟩
  rw [DDim.eq_iff_vectorize]
  constructor
  · intro h
    rw [vectorize_injective a b h]
    exact ⟨rfl, fun _ _ => rfl⟩
  · rintro ⟨har, hpos⟩
    have h1 := vectorize_length a
    have h2 := vectorize_length b
    apply List.ext_getElem?
    intro n
    by_cases hn : (n : Int) < arity a
    · exact hpos n hn
    · rw [List.getElem?_eq_none (by omega), List.getElem?_eq_none (by omega)]

/-- C7. Two shapes of different arity are not equal under `==`, whatever their extents. -/
theorem DDim.eq_false_of_arity_ne (a b : DDim) (h : arity a ≠ arity b) :
    DDim.eq a b = false ∧ DDim.ne a b = true := by
  have h1 := DDim.eq_of_arity_ne a b h
  exact ⟨h1, by simp [DDim.ne, h1]⟩

theorem DDim.eq_false_of_arity_ne_witness :
    (make_ddim [2, 3] = .ok (DDim.d2 (Dim.cons 2 (Dim.one 3))) ∧
      make_ddim [2, 3, 1] = .ok (DDim.d3 (Dim.cons 2 (Dim.cons 3 (Dim.one 1)))) ∧
      arity (DDim.d2 (Dim.cons 2 (Dim.one 3))) ≠
        arity (DDim.d3 (Dim.cons 2 (Dim.cons 3 (Dim.one 1))))) ∧
    (DDim.eq (DDim.d2 (Dim.cons 2 (Dim.one 3)))
        (DDim.d3 (Dim.cons 2 (Dim.cons 3 (Dim.one 1)))) = false ∧
      DDim.ne (DDim.d2 (Dim.cons 2 (Dim.one 3)))
        (DDim.d3 (Dim.cons 2 (Dim.cons 3 (Dim.one 1)))) = true) :=
  ⟨by decide,
    DDim.eq_false_of_arity_ne (DDim.d2 (Dim.cons 2 (Dim.one 3)))
      (DDim.d3 (Dim.cons 2 (Dim.cons 3 (Dim.one 1)))) (by decide)⟩

/-- C8. For two shapes of the same arity `operator+` returns a shape (the `assert` on the
sizes holds and the inner `make_ddim` does not throw) of that arity, whose extent at each
axis is the `int` sum of the operands' extents there; that is their sum as numbers whenever
the sum is a value of `int`. -/
theorem DDim.add_same_arity (a b : DDim) (h : arity a = arity b) :
    ∃ r, DDim.add a b = .ok r ∧ arity r = arity a ∧
      (∀ i : Nat, (i : Int) < arity a →
        vec_at (vectorize r) i = int_add (vec_at (vectorize a) i) (vec_at (vectorize b) i)) ∧
      (∀ i : Nat, (i : Int) < arity a →
        in_int_range (vec_at (vectorize a) i + vec_at (vectorize b) i) →
        vec_at (vectorize r) i = vec_at (vectorize a) i + vec_at (vectorize b) i) := by
  obtain ⟨r, hr, har, hpos⟩ := pointwise_make_ddim int_add a b
  have hlen : (vectorize a).length = (vectorize b).length := by
    have h1 := vectorize_length a
    have h2 := vectorize_length b
    omega
  refine ⟨r, ?_, har, hpos, ?_⟩
  · simp only [DDim.add, hlen, ne_eq, not_true_eq_false, if_false]
    rw [← hlen]
    exact hr
  · intro i hi hrange
    rw [hpos i hi]
    exact wrap_int_of_in_range _ hrange

theorem DDim.add_same_arity_witness :
    (arity (DDim.d3 (Dim.cons 1 (Dim.cons 2 (Dim.one 3)))) =
        arity (DDim.d3 (Dim.cons 4 (Dim.cons 5 (Dim.one 6)))) ∧
      make_ddim [1, 2, 3] = .ok (DDim.d3 (Dim.cons 1 (Dim.cons 2 (Dim.one 3)))) ∧
      make_ddim [4, 5, 6] = .ok (DDim.d3 (Dim.cons 4 (Dim.cons 5 (Dim.one 6)))) ∧
      (DDim.add (DDim.d3 (Dim.cons 1 (Dim.cons 2 (Dim.one 3))))
        (DDim.d3 (Dim.cons 4 (Dim.cons 5 (Dim.one 6))))).map vectorize = .ok [5, 7, 9]) ∧
    ∃ r, DDim.add (DDim.d3 (Dim.cons 1 (Dim.cons 2 (Dim.one 3))))
        (DDim.d3 (Dim.cons 4 (Dim.cons 5 (Dim.one 6)))) = .ok r ∧
      arity r = arity (DDim.d3 (Dim.cons 1 (Dim.cons 2 (Dim.one 3)))) ∧
      (∀ i : Nat, (i : Int) < arity (DDim.d3 (Dim.cons 1 (Dim.cons 2 (Dim.one 3)))) →
        vec_at (vectorize r) i =
          int_add (vec_at (vectorize (DDim.d3 (Dim.cons 1 (Dim.cons 2 (Dim.one 3))))) i)
            (vec_at (vectorize (DDim.d3 (Dim.cons 4 (Dim.cons 5 (Dim.one 6))))) i)) ∧
      (∀ i : Nat, (i : Int) < arity (DDim.d3 (Dim.cons 1 (Dim.cons 2 (Dim.one 3)))) →
        in_int_range (vec_at (vectorize (DDim.d3 (Dim.cons 1 (Dim.cons 2 (Dim.one 3))))) i +
          vec_at (vectorize (DDim.d3 (Dim.cons 4 (Dim.cons 5 (Dim.one 6))))) i) →
        vec_at (vectorize r) i =
          vec_at (vectorize (DDim.d3 (Dim.cons 1 (Dim.cons 2 (Dim.one 3))))) i +
            vec_at (vectorize (DDim.d3 (Dim.cons 4 (Dim.cons 5 (Dim.one 6))))) i) :=
  ⟨by decide,
    DDim.add_same_arity (DDim.d3 (Dim.cons 1 (Dim.cons 2 (Dim.one 3))))
      (DDim.d3 (Dim.cons 4 (Dim.cons 5 (Dim.one 6)))) (by decide)⟩

/-- C9. For two shapes of the same arity `operator*` returns a shape of that arity, whose
extent at each axis is the `int` product of the operands' extents there; that is their
product as numbers whenever the product is a value of `int`. -/
theorem DDim.mul_same_arity (a b : DDim) (h : arity a = arity b) :
    ∃ r, DDim.mul a b = .ok r ∧ arity r = arity a ∧
      (∀ i : Nat, (i : Int) < arity a →
        vec_at (vectorize r) i = int_mul (vec_at (vectorize a) i) (vec_at (vectorize b) i)) ∧
      (∀ i : Nat, (i : Int) < arity a →
        in_int_range (vec_at (vectorize a) i * vec_at (vectorize b) i) →
        vec_at (vectorize r) i = vec_at (vectorize a) i * vec_at (vectorize b) i) := by
  obtain ⟨r, hr, har, hpos⟩ := pointwise_make_ddim int_mul a b
  have hlen : (vectorize a).length = (vectorize b).length := by
    have h1 := vectorize_length a
    have h2 := vectorize_length b
    omega
  refine ⟨r, ?_, har, hpos, ?_⟩
  · simp only [DDim.mul, hlen, ne_eq, not_true_eq_false, if_false]
    rw [← hlen]
    exact hr
  · intro i hi hrange
    rw [hpos i hi]
    exact wrap_int_of_in_range _ hrange

theorem DDim.mul_same_arity_witness :
    (arity (DDim.d3 (Dim.cons 1 (Dim.cons 2 (Dim.one 3)))) =
        arity (DDim.d3 (Dim.cons 4 (Dim.cons 5 (Dim.one 6)))) ∧
      (DDim.mul (DDim.d3 (Dim.cons 1 (Dim.cons 2 (Dim.one 3))))
        (DDim.d3 (Dim.cons 4 (Dim.cons 5 (Dim.one 6))))).map vectorize = .ok [4, 10, 18]) ∧
    ∃ r, DDim.mul (DDim.d3 (Dim.cons 1 (Dim.cons 2 (Dim.one 3))))
        (DDim.d3 (Dim.cons 4 (Dim.cons 5 (Dim.one 6)))) = .ok r ∧
      arity r = arity (DDim.d3 (Dim.cons 1 (Dim.cons 2 (Dim.one 3)))) ∧
      (∀ i : Nat, (i : Int) < arity (DDim.d3 (Dim.cons 1 (Dim.cons 2 (Dim.one 3)))) →
        vec_at (vectorize r) i =
          int_mul (vec_at (vectorize (DDim.d3 (Dim.cons 1 (Dim.cons 2 (Dim.one 3))))) i)
            (vec_at (vectorize (DDim.d3 (Dim.cons 4 (Dim.cons 5 (Dim.one 6))))) i)) ∧
      (∀ i : Nat, (i : Int) < arity (DDim.d3 (Dim.cons 1 (Dim.cons 2 (Dim.one 3)))) →
        in_int_range (vec_at (vectorize (DDim.d3 (Dim.cons 1 (Dim.cons 2 (Dim.one 3))))) i *
          vec_at (vectorize (DDim.d3 (Dim.cons 4 (Dim.cons 5 (Dim.one 6))))) i) →
        vec_at (vectorize r) i =
          vec_at (vectorize (DDim.d3 (Dim.cons 1 (Dim.cons 2 (Dim.one 3))))) i *
            vec_at (vectorize (DDim.d3 (Dim.cons 4 (Dim.cons 5 (Dim.one 6))))) i) :=
  ⟨by decide,
    DDim.mul_same_arity (DDim.d3 (Dim.cons 1 (Dim.cons 2 (Dim.one 3))))
      (DDim.d3 (Dim.cons 4 (Dim.cons 5 (Dim.one 6)))) (by decide)⟩

/-- C10. For every list `v` of 1 to 9 integers `make_ddim v` returns a shape whose arity is
the length of `v`. -/
theorem arity_make_ddim (v : List Int) (h1 : 1 ≤ v.length) (h9 : v.length ≤ 9) :
    ∃ s, make_ddim v = .ok s ∧ arity s = (v.length : Int) := by
  obtain ⟨s, hs, hv⟩ := make_ddim_ok v h1 h9
  exact ⟨s, hs, by rw [← vectorize_length s, hv]⟩

theorem arity_make_ddim_witness :
    (1 ≤ [2, 3, 4].length ∧ [2, 3, 4].length ≤ 9 ∧
      (make_ddim [2, 3, 4]).map arity = .ok 3) ∧
    ∃ s, make_ddim [2, 3, 4] = .ok s ∧ arity s = (([2, 3, 4] : List Int).length : Int) :=
  ⟨by decide, arity_make_ddim [2, 3, 4] (by decide) (by decide)⟩

/-! ## Lemmas on indexed access and on the product -/

theorem Dim.index_natCast {D : Nat} (t : Dim D) (i : Nat) :
    Dim.index t (i : Int) = t.toList[i]? := by
  induction t generalizing i with
  | one head =>
    cases i with
    | zero => simp [Dim.index, Dim.toList]
    | succ k =>
      have : ¬ ((k : Int) + 1 = 0) := by omega
      simp [Dim.index, Dim.toList, this]
  | cons head tail ih =>
    cases i with
    | zero => simp [Dim.index, Dim.toList]
    | succ k =>
      have : ¬ ((k : Int) + 1 = 0) := by omega
      simp [Dim.index, Dim.toList, this, ih]

theorem Dim.index_neg {D : Nat} (t : Dim D) (idx : Int) (h : idx < 0) :
    Dim.index t idx = none := by
  induction t generalizing idx with
  | one head =>
    have : ¬ (idx = 0) := by omega
    simp [Dim.index, this]
  | cons head tail ih =>
    have : ¬ (idx = 0) := by omega
    simp [Dim.index, this, ih (idx - 1) (by omega)]

theorem Dim.assign_natCast {D : Nat} (t : Dim D) (i : Nat) (h : i < D) (value : Int) :
    ∃ u, Dim.assign t (i : Int) value = some u ∧ u.toList = t.toList.set i value := by
  induction t generalizing i with
  | one head =>
    have hi : i = 0 := by omega
    subst hi
    exact ⟨Dim.one value, by simp [Dim.assign], by simp [Dim.toList]⟩
  | cons head tail ih =>
    cases i with
    | zero => exact ⟨Dim.cons value tail, by simp [Dim.assign], by simp [Dim.toList]⟩
    | succ k =>
      have hk : ¬ ((k : Int) + 1 = 0) := by omega
      obtain ⟨u, hu, hl⟩ := ih k (by omega)
      exact ⟨Dim.cons head u, by simp [Dim.assign, hk, hu], by simp [Dim.toList, hl]⟩

theorem Dim.product_toList {D : Nat} (t : Dim D) :
    Dim.product t = wrap_ssize t.toList.prod := by
  induction t with
  | one head => simp [Dim.product, Dim.toList]
  | cons head tail ih =>
    simp only [Dim.product, Dim.toList, List.prod_cons, ih]
    exact wrap_ssize_mul_wrap _ _

theorem get_natCast (s : DDim) (i : Nat) : get s (i : Int) = (vectorize s)[i]? := by
  obtain ⟨D, t, -, hl, hf⟩ := apply_visitor_dim s
  rw [get, DDim.index, hf, DynamicConstIndexer, Dim.index_natCast, hl]

theorem set_natCast_map (s : DDim) (i : Nat) (h : (i : Int) < arity s) (value : Int) :
    (set s (i : Int) value).map vectorize = some ((vectorize s).set i value) := by
  cases s with
  | d1 t | d2 t | d3 t | d4 t | d5 t | d6 t | d7 t | d8 t | d9 t =>
    obtain ⟨u, hu, hl⟩ := Dim.assign_natCast t i
      (by simp [arity, apply_visitor] at h; omega) value
    simp [set, DDim.assign, hu, vectorize, apply_visitor, VectorizeVisitor_eq, hl]

theorem set_natCast (s : DDim) (i : Nat) (h : (i : Int) < arity s) (value : Int) :
    ∃ r, set s (i : Int) value = some r ∧ vectorize r = (vectorize s).set i value := by
  have hm := set_natCast_map s i h value
  cases hs : set s (i : Int) value with
  | none => simp [hs] at hm
  | some r =>
    rw [hs] at hm
    exact ⟨r, rfl, by simpa using hm⟩

theorem product_eq_wrap_prod (s : DDim) : product s = wrap_ssize (vectorize s).prod := by
  obtain ⟨D, t, -, hl, hf⟩ := apply_visitor_dim s
  rw [product, hf, ProductVisitor, Dim.product_toList, hl, wrap_ssize_idem]

theorem drop_take_drop_take (l : List Int) (a b c d : Nat) (h : a + d ≤ b) :
    ((((l.take b).drop a).take d).drop c) = (l.take (a + d)).drop (a + c) := by
  apply List.ext_getElem?
  intro n
  simp only [List.getElem?_drop, List.getElem?_take]
  by_cases h1 : c + n < d
  · have h2 : a + (c + n) < b := by omega
    have h3 : a + c + n < a + d := by omega
    simp [h1, h2, h3, Nat.add_assoc]
  · have h3 : ¬ (a + c + n < a + d) := by omega
    simp [h1, h3]


/-! ## The claims on indexed access, product, equality and slices -/

/-- C11. For a shape `s`, an index with `0 <= idx < arity(s)` and any `newVal`,
`set(s, idx, newVal)` leaves a shape of the same arity in which `get` at `idx` is `newVal`
and `get` at every other axis is what it was: the flattened list afterwards is the one
before with position `idx` replaced by `newVal`. -/
theorem set_then_get (s : DDim) (idx newVal : Int) (h0 : 0 ≤ idx) (h1 : idx < arity s) :
    ∃ r, set s idx newVal = some r ∧ arity r = arity s ∧ get r idx = some newVal ∧
      (∀ j : Int, 0 ≤ j → j < arity s → j ≠ idx → get r j = get s j) ∧
      vectorize r = (vectorize s).set idx.toNat newVal := by
  lift idx to Nat using h0
  obtain ⟨r, hr, hv⟩ := set_natCast s idx h1 newVal
  have hls := vectorize_length s
  have hlr := vectorize_length r
  have hlen : (vectorize r).length = (vectorize s).length := by
    rw [hv]
    simp
  refine ⟨r, hr, by omega, ?_, ?_, by simpa using hv⟩
  · rw [get_natCast, hv, List.getElem?_set_self (by omega)]
  · intro j hj0 _ hne
    lift j to Nat using hj0
    have hji : idx ≠ j := by
      intro h
      exact hne (by rw [h])
    rw [get_natCast, get_natCast, hv, List.getElem?_set_ne hji]

theorem set_then_get_witness :
    ((0 : Int) ≤ 1 ∧ (1 : Int) < arity (DDim.d3 (Dim.cons 2 (Dim.cons 3 (Dim.one 4)))) ∧
      (set (DDim.d3 (Dim.cons 2 (Dim.cons 3 (Dim.one 4)))) 1 7).map vectorize
        = some [2, 7, 4]) ∧
    ∃ r, set (DDim.d3 (Dim.cons 2 (Dim.cons 3 (Dim.one 4)))) 1 7 = some r ∧
      arity r = arity (DDim.d3 (Dim.cons 2 (Dim.cons 3 (Dim.one 4)))) ∧
      get r 1 = some 7 ∧
      (∀ j : Int, 0 ≤ j → j < arity (DDim.d3 (Dim.cons 2 (Dim.cons 3 (Dim.one 4)))) →
        j ≠ 1 → get r j = get (DDim.d3 (Dim.cons 2 (Dim.cons 3 (Dim.one 4)))) j) ∧
      vectorize r =
        (vectorize (DDim.d3 (Dim.cons 2 (Dim.cons 3 (Dim.one 4))))).set (1 : Int).toNat 7 :=
  ⟨by decide,
    set_then_get (DDim.d3 (Dim.cons 2 (Dim.cons 3 (Dim.one 4)))) 1 7 (by decide) (by decide)⟩

/-- C12. For a shape `s` and an index with `0 <= idx < arity(s)`, `get(s, idx)` is the
extent of axis `idx`: the element of `vectorize(s)` at position `idx`. -/
theorem get_eq_vectorize_at (s : DDim) (idx : Int) (h0 : 0 ≤ idx) (h1 : idx < arity s) :
    get s idx = some (vec_at (vectorize s) idx.toNat) ∧
      get s idx = (vectorize s)[idx.toNat]? := by
  lift idx to Nat using h0
  have hl := vectorize_length s
  have hlt : idx < (vectorize s).length := by omega
  rw [get_natCast]
  simp only [Int.toNat_ofNat, and_true]
  exact vec_at_eq_getElem? _ _ hlt

theorem get_eq_vectorize_at_witness :
    ((0 : Int) ≤ 2 ∧ (2 : Int) < arity (DDim.d3 (Dim.cons 2 (Dim.cons 3 (Dim.one 4)))) ∧
      get (DDim.d3 (Dim.cons 2 (Dim.cons 3 (Dim.one 4)))) 2 = some 4 ∧
      get (DDim.d3 (Dim.cons 2 (Dim.cons 3 (Dim.one 4)))) 0 = some 2) ∧
    (get (DDim.d3 (Dim.cons 2 (Dim.cons 3 (Dim.one 4)))) 2 =
        some (vec_at (vectorize (DDim.d3 (Dim.cons 2 (Dim.cons 3 (Dim.one 4)))))
          (2 : Int).toNat) ∧
      get (DDim.d3 (Dim.cons 2 (Dim.cons 3 (Dim.one 4)))) 2 =
        (vectorize (DDim.d3 (Dim.cons 2 (Dim.cons 3 (Dim.one 4)))))[(2 : Int).toNat]?) :=
  ⟨by decide,
    get_eq_vectorize_at (DDim.d3 (Dim.cons 2 (Dim.cons 3 (Dim.one 4)))) 2
      (by decide) (by decide)⟩

/-- C13, as amended. For every shape `s`, `product(s)` is a value of `ssize_t`, and it is
the product of all extents of `s`, the product of the elements of `vectorize(s)`, whenever
that product is a value of `ssize_t`. -/
theorem product_eq_prod_of_fits (s : DDim) (h : in_ssize_range (vectorize s).prod) :
    in_ssize_range (product s) ∧ product s = (vectorize s).prod := by
  rw [product_eq_wrap_prod]
  exact ⟨wrap_ssize_in_range _, wrap_ssize_of_in_range _ h⟩

theorem product_eq_prod_of_fits_witness :
    (make_ddim [2, 3, 4] = .ok (DDim.d3 (Dim.cons 2 (Dim.cons 3 (Dim.one 4)))) ∧
      product (DDim.d3 (Dim.cons 2 (Dim.cons 3 (Dim.one 4)))) = 24 ∧
      make_ddim [5] = .ok (DDim.d1 (Dim.one 5)) ∧
      product (DDim.d1 (Dim.one 5)) = 5 ∧
      in_ssize_range (vectorize (DDim.d3 (Dim.cons 2 (Dim.cons 3 (Dim.one 4))))).prod) ∧
    (in_ssize_range (product (DDim.d3 (Dim.cons 2 (Dim.cons 3 (Dim.one 4))))) ∧
      product (DDim.d3 (Dim.cons 2 (Dim.cons 3 (Dim.one 4)))) =
        (vectorize (DDim.d3 (Dim.cons 2 (Dim.cons 3 (Dim.one 4))))).prod) :=
  ⟨by decide,
    product_eq_prod_of_fits (DDim.d3 (Dim.cons 2 (Dim.cons 3 (Dim.one 4)))) (by decide)⟩

/-- C13 as stated fails at the shape of `[65536, 65536, 65536, 65536]`: the product of its
extents is `2^64`, which is no value of `ssize_t`, so `product` does not return it. -/
theorem product_ne_prod_of_overflow :
    make_ddim [65536, 65536, 65536, 65536] =
      .ok (DDim.d4 (Dim.cons 65536 (Dim.cons 65536 (Dim.cons 65536 (Dim.one 65536))))) ∧
    (vectorize (DDim.d4 (Dim.cons 65536 (Dim.cons 65536 (Dim.cons 65536
      (Dim.one 65536)))))).prod = 18446744073709551616 ∧
    in_ssize_range (product (DDim.d4 (Dim.cons 65536 (Dim.cons 65536 (Dim.cons 65536
      (Dim.one 65536)))))) ∧
    product (DDim.d4 (Dim.cons 65536 (Dim.cons 65536 (Dim.cons 65536 (Dim.one 65536))))) ≠
      (vectorize (DDim.d4 (Dim.cons 65536 (Dim.cons 65536 (Dim.cons 65536
        (Dim.one 65536)))))).prod := by
  decide

/-- C14. The operator `==` is reflexive and symmetric: `s == s` is true for every shape,
and `a == b` is the same as `b == a` for all shapes, of equal arity or not. -/
theorem DDim.eq_refl_symm (a b : DDim) :
    DDim.eq a a = true ∧ DDim.eq a b = DDim.eq b a := by
  constructor
  · exact (DDim.eq_iff_vectorize a a).2 rfl
  · rw [Bool.eq_iff_iff, DDim.eq_iff_vectorize, DDim.eq_iff_vectorize]
    exact eq_comm

/-- C15. For every shape `s`, `vectorize(s)` has exactly `arity(s)` elements. -/
theorem vectorize_size_eq_arity (s : DDim) : ((vectorize s).length : Int) = arity s :=
  vectorize_length s

/-- C16. Every shape returned by `make_ddim`, `operator+`, `operator*` or `slice_ddim`, and
every shape after `set`, has an arity from 1 to 9; none has arity 0 or above 9. -/
theorem arity_invariant :
    (∀ v s, make_ddim v = .ok s → 1 ≤ arity s ∧ arity s ≤ 9) ∧
    (∀ a b r, DDim.add a b = .ok r → 1 ≤ arity r ∧ arity r ≤ 9) ∧
    (∀ a b r, DDim.mul a b = .ok r → 1 ≤ arity r ∧ arity r ≤ 9) ∧
    (∀ s b e r, slice_ddim s b e = .ok r → 1 ≤ arity r ∧ arity r ≤ 9) ∧
    (∀ s idx value r, set s idx value = some r →
      (1 ≤ arity r ∧ arity r ≤ 9) ∧ arity r = arity s) := by
  refine ⟨fun _ s _ => arity_bounds s, fun _ _ r _ => arity_bounds r,
    fun _ _ r _ => arity_bounds r, fun _ _ _ r _ => arity_bounds r, ?_⟩
  intro s idx value r h
  refine ⟨arity_bounds r, ?_⟩
  cases s with
  | d1 t | d2 t | d3 t | d4 t | d5 t | d6 t | d7 t | d8 t | d9 t =>
    simp only [set, DDim.assign, Option.map_eq_some'] at h
    obtain ⟨u, -, rfl⟩ := h
    rfl

theorem arity_invariant_witness :
    (1 ≤ arity (DDim.d3 (Dim.cons 2 (Dim.cons 3 (Dim.one 4)))) ∧
      arity (DDim.d3 (Dim.cons 2 (Dim.cons 3 (Dim.one 4)))) ≤ 9) ∧
    (1 ≤ arity (DDim.d2 (Dim.cons 3 (Dim.one 4))) ∧
      arity (DDim.d2 (Dim.cons 3 (Dim.one 4))) ≤ 9) ∧
    ((1 ≤ arity (DDim.d2 (Dim.cons 3 (Dim.one 9))) ∧
      arity (DDim.d2 (Dim.cons 3 (Dim.one 9))) ≤ 9) ∧
      arity (DDim.d2 (Dim.cons 3 (Dim.one 9))) = arity (DDim.d2 (Dim.cons 3 (Dim.one 4)))) :=
  ⟨arity_invariant.1 [2, 3, 4] (DDim.d3 (Dim.cons 2 (Dim.cons 3 (Dim.one 4)))) (by decide),
    arity_invariant.2.2.2.1 (DDim.d3 (Dim.cons 2 (Dim.cons 3 (Dim.one 4)))) 1 3
      (DDim.d2 (Dim.cons 3 (Dim.one 4))) (by decide),
    arity_invariant.2.2.2.2 (DDim.d2 (Dim.cons 3 (Dim.one 4))) 1 9
      (DDim.d2 (Dim.cons 3 (Dim.one 9))) (by decide)⟩

/-- C17. For every shape `s`, `make_ddim(vectorize(s))` returns a shape (it does not throw),
and that shape is `s`: it is equal to `s` under `==` and has the arity of `s`. -/
theorem make_ddim_vectorize_roundtrip (s : DDim) :
    ∃ r, make_ddim (vectorize s) = .ok r ∧ DDim.eq r s = true ∧ arity r = arity s ∧
      r = s :=
  ⟨s, make_ddim_vectorize s, (DDim.eq_iff_vectorize s s).2 rfl, rfl, rfl⟩

/-- C18. For every shape `s`, `slice_ddim(s, 0, arity(s))` returns a shape, and that shape
is `s`: equal to it under `==`, with the same arity and the same extents. -/
theorem slice_ddim_full_range (s : DDim) :
    ∃ r, slice_ddim s 0 (arity s) = .ok r ∧ DDim.eq r s = true ∧ arity r = arity s ∧
      vectorize r = vectorize s := by
  have hb := arity_bounds s
  have hl := vectorize_length s
  obtain ⟨r, hr, hv, -⟩ := slice_ddim_ok_aux s 0 (arity s) (le_refl _) (by omega) (le_refl _)
  have hvs : vectorize r = vectorize s := by
    rw [hv]
    have : (arity s).toNat = (vectorize s).length := by omega
    simp [this]
  have hrs : r = s := vectorize_injective r s hvs
  exact ⟨r, hr, (DDim.eq_iff_vectorize r s).2 hvs, by rw [hrs], hvs⟩

/-- C19. For a shape `s` and `int`s with `0 <= a < b <= arity(s)` and
`0 <= c < d <= b - a`, slicing the slice `[a, b)` of `s` by `[c, d)` returns a shape, and
it is the shape that slicing `s` by `[a + c, a + d)` returns. -/
theorem slice_ddim_compose (s : DDim) (a b c d : Int) (ha : 0 ≤ a) (hab : a < b)
    (hb : b ≤ arity s) (hc : 0 ≤ c) (hcd : c < d) (hd : d ≤ b - a) :
    ∃ r1 r2, slice_ddim s a b = .ok r1 ∧ slice_ddim r1 c d = .ok r2 ∧
      slice_ddim s (a + c) (a + d) = .ok r2 ∧
      ∃ r3, slice_ddim s (a + c) (a + d) = .ok r3 ∧ DDim.eq r2 r3 = true := by
  obtain ⟨r1, h1, v1, l1⟩ := slice_ddim_ok_aux s a b ha hab hb
  have ar1 : arity r1 = b - a := by rw [← vectorize_length r1, l1]
  obtain ⟨r2, h2, v2, -⟩ := slice_ddim_ok_aux r1 c d hc hcd (by omega)
  obtain ⟨r3, h3, v3, -⟩ := slice_ddim_ok_aux s (a + c) (a + d) (by omega) (by omega)
    (by omega)
  have hv : vectorize r2 = vectorize r3 := by
    rw [v2, v1, v3]
    lift a to Nat using ha
    lift c to Nat using hc
    lift b to Nat using (by omega)
    lift d to Nat using (by omega)
    have hadd1 : ((a : Int) + (c : Int)).toNat = a + c := by omega
    have hadd2 : ((a : Int) + (d : Int)).toNat = a + d := by omega
    rw [hadd1, hadd2]
    simp only [Int.toNat_ofNat]
    exact drop_take_drop_take (vectorize s) a b c d (by omega)
  have h23 : r2 = r3 := vectorize_injective r2 r3 hv
  subst h23
  exact ⟨r1, r2, h1, h2, h3, r2, h3, (DDim.eq_iff_vectorize r2 r2).2 rfl⟩

theorem slice_ddim_compose_witness :
    ((0 : Int) ≤ 1 ∧ (1 : Int) < 4 ∧
      (4 : Int) ≤ arity (DDim.d4 (Dim.cons 10 (Dim.cons 20 (Dim.cons 30 (Dim.one 40))))) ∧
      (0 : Int) ≤ 1 ∧ (1 : Int) < 3 ∧ (3 : Int) ≤ 4 - 1 ∧
      (slice_ddim (DDim.d4 (Dim.cons 10 (Dim.cons 20 (Dim.cons 30 (Dim.one 40))))) 2 4).map
        vectorize = .ok [30, 40]) ∧
    ∃ r1 r2,
      slice_ddim (DDim.d4 (Dim.cons 10 (Dim.cons 20 (Dim.cons 30 (Dim.one 40))))) 1 4
        = .ok r1 ∧
      slice_ddim r1 1 3 = .ok r2 ∧
      slice_ddim (DDim.d4 (Dim.cons 10 (Dim.cons 20 (Dim.cons 30 (Dim.one 40))))) (1 + 1)
        (1 + 3) = .ok r2 ∧
      ∃ r3, slice_ddim (DDim.d4 (Dim.cons 10 (Dim.cons 20 (Dim.cons 30 (Dim.one 40)))))
          (1 + 1) (1 + 3) = .ok r3 ∧ DDim.eq r2 r3 = true :=
  ⟨by decide,
    slice_ddim_compose (DDim.d4 (Dim.cons 10 (Dim.cons 20 (Dim.cons 30 (Dim.one 40)))))
      1 4 1 3 (by decide) (by decide) (by decide) (by decide) (by decide) (by decide)⟩

end paddle.framework
